import Mathlib

/-!
Verification of the SQL-like query engine in `src/utils/sqlEngine.ts`
(class `SimpleSQLEngine`).

The engine is embedded shallowly:

* JavaScript strings are modelled as `List Char` (named `Str` below); all of
  the string operations the engine uses (`split`, `trim`, `toLowerCase`,
  `toUpperCase`, `startsWith`, `endsWith`, `includes`, template joins) are
  defined structurally over `List Char` so that every concrete run of the
  engine can be evaluated by the kernel.
* JavaScript's loosely-typed scalar values (`undefined`, `null`, strings,
  numbers, booleans) are the inductive type `Value`.  Numbers are modelled as
  `ℚ`; the engine's arithmetic (sums, averages, comparisons) never relies on
  binary floating-point rounding in any of the verified claims, and `ℚ` keeps
  all of it exact and decidable.
* A row (a plain JS object used as a record) is an association list
  `List (Str × Value)` with first-match lookup; a missing key reads as
  `Value.undefined`, exactly like property access on a JS object.
* Fallible code (`throw`) is modelled with `Except Str`.
-/

namespace SqlSpec

/-- JavaScript strings, modelled as lists of characters. -/
abbrev Str := List Char

/-- Whitespace characters recognised by the model (space, tab, LF, CR).
JavaScript's `\s` and `trim` accept a few more exotic characters; none of the
verified claims depend on them. -/
def wsChar (c : Char) : Bool :=
  c == ' ' || c == '\t' || c == '\n' || c == '\r'

/-- `String.prototype.trim`: drop leading and trailing whitespace. -/
def strTrim (s : Str) : Str :=
  ((s.dropWhile wsChar).reverse.dropWhile wsChar).reverse

/-- `String.prototype.toLowerCase` (ASCII). -/
def strToLower (s : Str) : Str := s.map Char.toLower

/-- `String.prototype.toUpperCase` (ASCII). -/
def strToUpper (s : Str) : Str := s.map Char.toUpper

/-- `String.prototype.startsWith`. -/
def strStartsWith (s p : Str) : Bool := p.isPrefixOf s

/-- `String.prototype.endsWith`. -/
def strEndsWith (s p : Str) : Bool := p.reverse.isPrefixOf s.reverse

/-- `String.prototype.includes`: substring occurrence test. -/
def strIncludes : Str → Str → Bool
  | [], n => n.isEmpty
  | c :: rest, n => n.isPrefixOf (c :: rest) || strIncludes rest n

/-- One step of `String.prototype.split(sep)` for a non-empty separator, with
explicit fuel (the fuel is always at least the length of the remaining input,
so the `0` case is unreachable).  Occurrences are consumed left to right and
are non-overlapping, exactly as in JavaScript. -/
def splitOnFuel (sep : Str) : ℕ → Str → Str → List Str
  | 0, s, cur => [cur.reverse ++ s]
  | fuel + 1, s, cur =>
    match s with
    | [] => [cur.reverse]
    | c :: rest =>
      if sep.isPrefixOf (c :: rest) then
        cur.reverse :: splitOnFuel sep fuel ((c :: rest).drop sep.length) []
      else
        splitOnFuel sep fuel rest (c :: cur)

/-- `String.prototype.split(sep)` for a non-empty literal separator. -/
def strSplitOn (s sep : Str) : List Str := splitOnFuel sep s.length s []

/-- `Array.prototype.join(sep)` / building the group key with `"|"`. -/
def strIntercalate (sep : Str) : List Str → Str
  | [] => []
  | [x] => x
  | x :: xs => x ++ sep ++ strIntercalate sep xs

/-- Numeric value of a decimal digit character. -/
def digitVal (c : Char) : ℕ := c.toNat - '0'.toNat

/-- Value of a string of decimal digits. -/
def digitsToNat (cs : Str) : ℕ := cs.foldl (fun n c => 10 * n + digitVal c) 0

/-- Decimal rendering of a natural number (fuel-based, fully structural). -/
def natToCharsFuel : ℕ → ℕ → List Char
  | 0, _ => []
  | fuel + 1, n =>
    if n < 10 then [Char.ofNat (48 + n)]
    else natToCharsFuel fuel (n / 10) ++ [Char.ofNat (48 + n % 10)]

/-- Decimal rendering of a natural number. -/
def natToChars (n : ℕ) : List Char := natToCharsFuel (n + 1) n

/-- Decimal rendering of an integer. -/
def intToChars (i : ℤ) : List Char :=
  if i < 0 then '-' :: natToChars i.natAbs else natToChars i.natAbs

/-- Rendering of a number as a string, as in JS `String(number)`.  Integral
values render exactly as in JavaScript.  Non-integral values are rendered as
`num/den`, a placeholder: JavaScript prints a decimal expansion, and no
verified claim depends on the string form of a non-integral number. -/
def ratToChars (q : ℚ) : List Char :=
  if q.den = 1 then intToChars q.num else intToChars q.num ++ '/' :: natToChars q.den

/-- JavaScript scalar values: `undefined`, `null`, string, number, boolean. -/
inductive Value where
  | undefined
  | null
  | str (s : Str)
  | num (q : ℚ)
  | bool (b : Bool)
deriving Repr, DecidableEq

deriving instance DecidableEq for Except

/-- JS `String(v)`. -/
def valueToStr : Value → Str
  | .undefined => "undefined".toList
  | .null => "null".toList
  | .str s => s
  | .num q => ratToChars q
  | .bool b => if b then "true".toList else "false".toList

/-- JS truthiness (`undefined`, `null`, `""`, `0` and `false` are falsy; the
model has no `NaN` value, which only arises transiently inside comparisons). -/
def truthy : Value → Bool
  | .undefined => false
  | .null => false
  | .str s => !s.isEmpty
  | .num q => !(q == 0)
  | .bool b => b

/-- JS `a || b` specialised to the engine's uses (returns `a` if truthy). -/
def jsOr (v fallback : Value) : Value := if truthy v then v else fallback

/-- Parse a whole unsigned decimal literal (`digits`, `digits.digits`,
`.digits`, `digits.`); `none` models `NaN`.  Exponent and hexadecimal forms
are not modelled; no verified claim uses them. -/
def parseWholeDecimal (cs : Str) : Option ℚ :=
  let ip := cs.takeWhile Char.isDigit
  let rest := cs.dropWhile Char.isDigit
  match rest with
  | [] => if ip.isEmpty then none else some (digitsToNat ip : ℚ)
  | '.' :: fp =>
    if fp.all Char.isDigit && !(ip.isEmpty && fp.isEmpty) then
      some (mkRat (digitsToNat (ip ++ fp)) (10 ^ fp.length))
    else none
  | _ => none

/-- JS `Number(string)` (used by `==` and relational coercion): trims, maps
the empty string to `0`, otherwise requires the whole string to be a signed
decimal literal; `none` models `NaN`. -/
def strToNumber (s : Str) : Option ℚ :=
  let t := strTrim s
  if t.isEmpty then some 0
  else
    match t with
    | '-' :: cs => (parseWholeDecimal cs).map Neg.neg
    | '+' :: cs => parseWholeDecimal cs
    | cs => parseWholeDecimal cs

/-- Longest decimal prefix, for `parseFloat`. -/
def parseFloatCore (cs : Str) : Option ℚ :=
  let ip := cs.takeWhile Char.isDigit
  let rest := cs.dropWhile Char.isDigit
  let fp := match rest with
    | '.' :: r => r.takeWhile Char.isDigit
    | _ => []
  if ip.isEmpty && fp.isEmpty then none
  else some (mkRat (digitsToNat (ip ++ fp)) (10 ^ fp.length))

/-- JS `parseFloat(string)`: skip leading whitespace, optional sign, then the
longest decimal prefix; `none` models `NaN`. -/
def parseFloatStr (s : Str) : Option ℚ :=
  match s.dropWhile wsChar with
  | '-' :: cs => (parseFloatCore cs).map Neg.neg
  | '+' :: cs => parseFloatCore cs
  | cs => parseFloatCore cs

/-- JS `ToNumber` on a scalar value; `none` models `NaN`. -/
def toNumberVal : Value → Option ℚ
  | .undefined => none
  | .null => some 0
  | .str s => strToNumber s
  | .num q => some q
  | .bool b => some (if b then 1 else 0)

/-- JS `parseFloat(v)` on a scalar (the argument is coerced to string first;
a number round-trips through its own decimal rendering). -/
def parseFloatVal : Value → Option ℚ
  | .num q => some q
  | v => parseFloatStr (valueToStr v)

/-- The engine's `parseFloat(val) || 0` coercion (`NaN` becomes `0`). -/
def parseFloatOr0 (v : Value) : ℚ := (parseFloatVal v).getD 0

/-- A row: a JS object, i.e. an insertion-ordered association list with
unique keys.  A missing key reads as `Value.undefined`. -/
abbrev Row := List (Str × Value)

/-- Property read `row[col]`. -/
def rowGet (r : Row) (c : Str) : Value :=
  match r.find? (fun p => p.1 == c) with
  | some p => p.2
  | none => .undefined

/-- `Object.prototype.hasOwnProperty`. -/
def rowHas (r : Row) (c : Str) : Bool := r.any (fun p => p.1 == c)

/-- Property write `row[col] = v`: overwrites in place, or appends a new key
(JS objects keep the original key position on overwrite). -/
def rowSet (r : Row) (c : Str) (v : Value) : Row :=
  if rowHas r c then r.map (fun p => if p.1 == c then (p.1, v) else p)
  else r ++ [(c, v)]

/-- Strip single and double quotes, as in `value.replace(/['"]/g, '')`. -/
def stripQuotes (s : Str) : Str :=
  s.filter (fun c => !(c == Char.ofNat 39 || c == Char.ofNat 34))

/-- Loose equality `columnValue == value` where the right-hand side is the
literal text from the condition (always a string in the source). -/
def looseEqStr (v : Value) (t : Str) : Bool :=
  match v with
  | .undefined => false
  | .null => false
  | .str s => s == t
  | .num q =>
    match strToNumber t with
    | some q2 => decide (q = q2)
    | none => false
  | .bool b =>
    match strToNumber t with
    | some q2 => decide ((if b then (1 : ℚ) else 0) = q2)
    | none => false

/-- The `switch (operator)` body of `evaluateCondition` (sqlEngine.ts
lines 264-282), evaluated after the split produced `column` and `value`. -/
def evalCondOp (row : Row) (col op lit : Str) : Bool :=
  let columnValue := rowGet row col
  if columnValue == Value.undefined then false
  else if op == "=".toList then looseEqStr columnValue lit
  else if op == "!=".toList then !looseEqStr columnValue lit
  else if op == ">".toList then
    match toNumberVal columnValue, parseFloatStr lit with
    | some a, some b => decide (b < a)
    | _, _ => false
  else if op == "<".toList then
    match toNumberVal columnValue, parseFloatStr lit with
    | some a, some b => decide (a < b)
    | _, _ => false
  else if op == ">=".toList then
    match toNumberVal columnValue, parseFloatStr lit with
    | some a, some b => decide (b ≤ a)
    | _, _ => false
  else if op == "<=".toList then
    match toNumberVal columnValue, parseFloatStr lit with
    | some a, some b => decide (a ≤ b)
    | _, _ => false
  else if op == "like".toList || op == "contains".toList then
    strIncludes (strToLower (valueToStr columnValue)) (stripQuotes (strToLower lit))
  else false

/-- The operator list of `evaluateCondition` (sqlEngine.ts line 253), in
source order. -/
def operators : List Str :=
  (["=", "!=", ">", "<", ">=", "<=", "like", "contains"].map String.toList)

/-- The operator loop of `evaluateCondition` (sqlEngine.ts lines 255-285):
take the first operator in source order that occurs in the condition *and*
splits it into exactly two parts; if none does, the row passes. -/
def evaluateConditionGo (row : Row) (cond : Str) : List Str → Bool
  | [] => true
  | op :: ops =>
    if strIncludes cond op then
      match (strSplitOn cond op).map strTrim with
      | [col, lit] => evalCondOp row col op lit
      | _ => evaluateConditionGo row cond ops
    else evaluateConditionGo row cond ops

/-- `evaluateCondition` (sqlEngine.ts lines 251-288). -/
def evaluateCondition (row : Row) (cond : Str) : Bool :=
  evaluateConditionGo row cond operators

/-- Match one separator word (`and` / `or`) case-insensitively at the start of
`cs`, followed by at least one whitespace character; on success return the
input with the word and the (greedily consumed) trailing whitespace removed. -/
def matchSepWord (word cs : Str) : Option Str :=
  if (word.map Char.toLower).isPrefixOf (cs.map Char.toLower) then
    let after := cs.drop word.length
    if (after.takeWhile wsChar).isEmpty then none else some (after.dropWhile wsChar)
  else none

/-- Match the separator regex `\s+and\s+|\s+or\s+` (case-insensitive) at the
start of `cs`: one or more whitespace characters, then `and` (tried first, as
in the regex alternation) or `or`, then one or more whitespace characters.
Returns the remaining input after the whole separator. -/
def matchSep (cs : Str) : Option Str :=
  let ws := cs.takeWhile wsChar
  let rest := cs.dropWhile wsChar
  if ws.isEmpty then none
  else
    match matchSepWord "and".toList rest with
    | some r => some r
    | none => matchSepWord "or".toList rest

/-- The scan of `whereClause.split(/\s+and\s+|\s+or\s+/i)`: left to right,
at each position first try to match the separator (leftmost match wins, as in
the regex engine), otherwise keep the character in the current token.  The
fuel is always at least the length of the remaining input (each step consumes
at least one character), so the `0` case is unreachable. -/
def splitCondsFuel : ℕ → Str → Str → List Str
  | 0, s, cur => [cur.reverse ++ s]
  | fuel + 1, s, cur =>
    match s with
    | [] => [cur.reverse]
    | c :: rest =>
      match matchSep (c :: rest) with
      | some r2 => cur.reverse :: splitCondsFuel fuel r2 []
      | none => splitCondsFuel fuel rest (c :: cur)

/-- `whereClause.split(/\s+and\s+|\s+or\s+/i)` (sqlEngine.ts line 129). -/
def conditionTokens (whereClause : Str) : List Str :=
  splitCondsFuel whereClause.length whereClause []

/-- `applyWhereClause` (sqlEngine.ts lines 127-136): keep a row iff *every*
split condition token evaluates to true on it — both `AND` and `OR`
separators end up conjunctive. -/
def applyWhereClause (data : List Row) (whereClause : Str) : List Row :=
  data.filter (fun row =>
    (conditionTokens whereClause).all (fun c => evaluateCondition row (strTrim c)))

/-- The aggregation function names (sqlEngine.ts line 193). -/
def aggregationFunctions : List Str :=
  (["COUNT", "SUM", "AVG", "MIN", "MAX"].map String.toList)

/-- `isAggregationColumn` (sqlEngine.ts lines 192-197). -/
def isAggregationColumn (column : Str) : Bool :=
  aggregationFunctions.any (fun f =>
    strStartsWith (strToUpper column) (f ++ "(".toList) && strEndsWith column ")".toList)
  || column == "COUNT(*)".toList

/-- Word characters, JS `\w`. -/
def wordChar (c : Char) : Bool := c.isAlphanum || c == '_'

/-- `parseAggregationColumn` (sqlEngine.ts lines 199-216).  The regex
`^(\w+)\((.+)\)$` matches iff the column is `word ++ "(" ++ mid ++ ")"` with
`word` and `mid` non-empty; the function name is upper-cased and the inner
column name trimmed. -/
def parseAggregationColumn (column : Str) : Except Str (Str × Str) :=
  if column == "COUNT(*)".toList then .ok ("COUNT".toList, "*".toList)
  else
    let w := column.takeWhile wordChar
    let rest := column.dropWhile wordChar
    match rest with
    | '(' :: r2 =>
      if w.isEmpty || decide (r2.length < 2) || !(r2.getLast? == some ')') then
        .error ("Invalid aggregation syntax: ".toList ++ column)
      else
        .ok (strToUpper w, strTrim r2.dropLast)
    | _ => .error ("Invalid aggregation syntax: ".toList ++ column)

/-- `Math.min(...)` over a list known to be non-empty at every call site
(`values.length === 0` was already ruled out); the `[]` case is unreachable. -/
def listMin : List ℚ → ℚ
  | [] => 0
  | x :: xs => xs.foldl min x

/-- `Math.max(...)` over a non-empty list; the `[]` case is unreachable. -/
def listMax : List ℚ → ℚ
  | [] => 0
  | x :: xs => xs.foldl max x

/-- `calculateAggregation` (sqlEngine.ts lines 218-249).  Note that the
`values.length === 0` early return precedes the `switch`, so *every*
aggregate — `COUNT` included — yields `null` when no non-null value exists,
and the `default:` throw is reachable only for a function name outside the
fixed set. -/
def calculateAggregation (groupRows : List Row) (functionName columnName : Str) :
    Except Str Value :=
  let values := (groupRows.map (fun r => rowGet r columnName)).filter
    (fun v => !(v == Value.null) && !(v == Value.undefined))
  if values.length = 0 then .ok .null
  else if functionName == "COUNT".toList then
    if columnName == "*".toList then .ok (.num groupRows.length)
    else .ok (.num values.length)
  else if functionName == "SUM".toList then
    .ok (.num (values.foldl (fun s v => s + parseFloatOr0 v) 0))
  else if functionName == "AVG".toList then
    .ok (.num ((values.foldl (fun s v => s + parseFloatOr0 v) 0) / (values.length : ℚ)))
  else if functionName == "MIN".toList then
    .ok (.num (listMin (values.map parseFloatOr0)))
  else if functionName == "MAX".toList then
    .ok (.num (listMax (values.map parseFloatOr0)))
  else .error ("Unsupported aggregation function: ".toList ++ functionName)

/-- The group key of a row (sqlEngine.ts line 146):
`groupColumns.map(col => String(row[col] || 'NULL')).join('|')`.  Every falsy
value — `null`, a missing key, `""`, `0`, `false` — renders as the sentinel
`"NULL"`. -/
def groupKeyOf (groupColumns : List Str) (row : Row) : Str :=
  strIntercalate "|".toList
    (groupColumns.map (fun col => valueToStr (jsOr (rowGet row col) (Value.str "NULL".toList))))

/-- Insert a row into the insertion-ordered group map (sqlEngine.ts
lines 148-151), modelling the JS `Map` (unique keys, insertion order):
append the row to the bucket of its key, or append a new bucket at the end
when the key is new. -/
def insertGrouped : List (Str × List Row) → Str → Row → List (Str × List Row)
  | [], key, row => [(key, [row])]
  | g :: rest, key, row =>
    if g.1 == key then (g.1, g.2 ++ [row]) :: rest
    else g :: insertGrouped rest key row

/-- The grouping pass of `applyGroupBy` (sqlEngine.ts lines 142-152),
modelling the insertion-ordered JS `Map`. -/
def buildGroups (groupColumns : List Str) (data : List Row) : List (Str × List Row) :=
  data.foldl (fun gs row => insertGrouped gs (groupKeyOf groupColumns row) row) []

/-- Reading a group-column value back out of the split group key
(sqlEngine.ts line 163): the `"NULL"` sentinel becomes `null`, anything else
stays a string; an out-of-range index reads as `undefined`. -/
def splitKeyValue (groupValues : List Str) (i : ℕ) : Value :=
  match groupValues.get? i with
  | some s => if s == "NULL".toList then .null else .str s
  | none => .undefined

/-- The first row of a group (`groupRows[0]`); groups built by `buildGroups`
are never empty, so the `[]` default is unreachable. -/
def firstRow (g : List Row) : Row := g.headI

/-- Building one output row of `applyGroupBy` (sqlEngine.ts lines 157-186):
first the group columns from the split key, then each select column — the
`COUNT(*)` special case, aggregation columns, and plain columns (group
columns and any other column both take the first row's value, exactly as the
two identical branches of the source do). -/
def processGroup (columns groupColumns : List Str) (key : Str) (groupRows : List Row) :
    Except Str Row :=
  let groupValues := strSplitOn key "|".toList
  let base := groupColumns.enum.foldl
    (fun acc p => rowSet acc p.2 (splitKeyValue groupValues p.1)) []
  columns.foldlM
    (fun acc col =>
      let trimmedCol := strTrim col
      if trimmedCol == "COUNT(*)".toList then
        .ok (rowSet acc "COUNT(*)".toList (.num groupRows.length))
      else if isAggregationColumn trimmedCol then do
        let fc ← parseAggregationColumn trimmedCol
        let v ← calculateAggregation groupRows fc.1 fc.2
        .ok (rowSet acc trimmedCol v)
      else
        .ok (rowSet acc trimmedCol (rowGet (firstRow groupRows) trimmedCol)))
    base

/-- `applyGroupBy` (sqlEngine.ts lines 138-190). -/
def applyGroupBy (data : List Row) (columns : List Str) (groupByClause : Str) :
    Except Str (List Row) :=
  let groupColumns := (strSplitOn groupByClause ",".toList).map strTrim
  (buildGroups groupColumns data).mapM (fun g => processGroup columns groupColumns g.1 g.2)

/-- The maximal non-whitespace runs of a string. -/
def wsRunsFuel : ℕ → Str → List Str
  | 0, _ => []
  | fuel + 1, s =>
    match s with
    | [] => []
    | c :: rest =>
      if wsChar c then wsRunsFuel fuel rest
      else ((c :: rest).takeWhile (fun x => !wsChar x)) ::
        wsRunsFuel fuel ((c :: rest).dropWhile (fun x => !wsChar x))

/-- `orderPart.split(/\s+/)` for the already-trimmed order terms: the list of
maximal non-whitespace runs, except that the empty string splits to `[""]`. -/
def splitWsRuns (s : Str) : List Str :=
  if s.isEmpty then [[]] else wsRunsFuel s.length s

/-- `String.prototype.localeCompare`, modelled as code-point lexicographic
comparison.  Real locale collation can differ on case-mixed or non-ASCII
strings; no verified claim depends on the relative order of two unequal
strings. -/
def strCompare : Str → Str → ℤ
  | [], [] => 0
  | [], _ :: _ => -1
  | _ :: _, [] => 1
  | c :: cs, d :: ds => if c = d then strCompare cs ds else if c < d then -1 else 1

/-- JS `a < b` on the non-string path of the comparator (`aVal < bVal ? -1 : 1`
with `aVal` not a string): both sides go through `ToNumber`; any `NaN` makes
the comparison false. -/
def jsLt (a b : Value) : Bool :=
  match toNumberVal a, toNumberVal b with
  | some x, some y => decide (x < y)
  | _, _ => false

/-- The comparator of `applyOrderBy` (sqlEngine.ts lines 293-314): walk the
order terms; `continue` to the next term only on *strict* equality of the two
column values; otherwise return the (direction-adjusted) comparison — strings
via `localeCompare` against the string form of the other value, anything else
via `aVal < bVal ? -1 : 1`. -/
def cmpRows (orderParts : List Str) (a b : Row) : ℤ :=
  match orderParts with
  | [] => 0
  | part :: rest =>
    let ps := splitWsRuns part
    let column := ps.headI
    let direction := ps.get? 1
    let aVal := rowGet a column
    let bVal := rowGet b column
    if aVal == bVal then cmpRows rest a b
    else
      let comparison : ℤ :=
        match aVal with
        | .str s => strCompare s (valueToStr bVal)
        | _ => if jsLt aVal bVal then -1 else 1
      match direction with
      | some d => if strToLower d == "desc".toList then -comparison else comparison
      | none => comparison

/-- `applyOrderBy` (sqlEngine.ts lines 290-316).  `Array.prototype.sort` is a
stable sort; for a consistent comparator its result is the unique stable
order, which `List.mergeSort` with `le a b := cmp a b ≤ 0` computes. -/
def applyOrderBy (data : List Row) (orderClause : Str) : List Row :=
  let orderParts := (strSplitOn orderClause ",".toList).map strTrim
  data.mergeSort (fun a b => decide (cmpRows orderParts a b ≤ 0))

/-- The clauses of a SELECT query after the clause segmentation of
`handleSelectQuery` (sqlEngine.ts lines 35-41 and 52-72): the comma-split,
trimmed select column list, the raw texts of the optional WHERE / GROUP BY /
ORDER BY clauses, and the parsed LIMIT count. -/
structure SelectParts where
  columns : List Str
  whereClause : Option Str
  groupByClause : Option Str
  orderByClause : Option Str
  limit : Option ℕ
deriving Repr, DecidableEq

/-- Column projection (sqlEngine.ts lines 78-86): keep, per row, only the
requested columns that exist on the row. -/
def projectRow (columns : List Str) (row : Row) : Row :=
  columns.foldl
    (fun acc col => if rowHas row col then rowSet acc col (rowGet row col) else acc) []

/-- The pipeline of `handleSelectQuery` after clause segmentation
(sqlEngine.ts lines 44-89): empty-table check, WHERE filter, GROUP BY,
ORDER BY, LIMIT (`Array.prototype.slice` clamps), then column projection only
when no GROUP BY was present and the column list is not `*`. -/
def handleSelect (p : SelectParts) (tableData : List Row) : Except Str (List Row) :=
  if tableData.length = 0 then .error ("Table not found or empty".toList)
  else
    let r1 := match p.whereClause with
      | some w => applyWhereClause tableData w
      | none => tableData
    match (match p.groupByClause with
           | some g => applyGroupBy r1 p.columns g
           | none => .ok r1) with
    | .error e => .error e
    | .ok r2 =>
      let r3 := match p.orderByClause with
        | some o => applyOrderBy r2 o
        | none => r2
      let r4 := match p.limit with
        | some n => r3.take n
        | none => r3
      .ok (if p.groupByClause.isNone && !(p.columns.headI == "*".toList) then
        r4.map (projectRow p.columns)
      else r4)

/-!
Heap-level model for the frame claim (C9).

At the value level every pipeline stage above is pure, so array mutation is
invisible.  To settle the frame claim we re-run the same pipeline over an
explicit heap of arrays: `filter`, the group-by result array, `slice` and
`map` allocate fresh arrays, the spread `[...tableData]` allocates a copy,
while `Array.prototype.sort` writes back *in place* through its array id,
exactly as in the source.  Records themselves are kept as immutable values:
every property write in the source (`groupedRow[...] = ...`,
`selectedRow[col] = ...`) targets a freshly created object literal, never a
fetched record, so record identity needs no heap.
-/

/-- A heap of JS arrays of rows; an array id is an index into the heap. -/
abbrev Heap := List (List Row)

/-- Read an array from the heap (ids are always in range at use sites). -/
def heapGet (h : Heap) (i : ℕ) : List Row := h[i]?.getD []

/-- Allocate a fresh array. -/
def heapAlloc (h : Heap) (rows : List Row) : Heap × ℕ := (h ++ [rows], h.length)

/-- The engine state: the `dataCache` map from table name to the id of the
cached array, plus the heap the ids point into. -/
structure EngineSt where
  cache : List (Str × ℕ)
  heap : Heap
deriving Repr, DecidableEq

/-- `loadTableData` (sqlEngine.ts lines 112-125): return the cached array id
if present — the caller aliases the cached array — otherwise fetch from the
provider, allocate, and cache the new id. -/
def loadTableHeap (provider : Str → List Row) (st : EngineSt) (name : Str) :
    EngineSt × ℕ :=
  match st.cache.find? (fun e => e.1 == name) with
  | some e => (st, e.2)
  | none =>
    let hi := heapAlloc st.heap (provider name)
    (⟨st.cache ++ [(name, hi.2)], hi.1⟩, hi.2)

/-- WHERE stage on the heap: `Array.prototype.filter` allocates. -/
def whereStageH (w : Option Str) (hi : Heap × ℕ) : Heap × ℕ :=
  match w with
  | none => hi
  | some wc => heapAlloc hi.1 (applyWhereClause (heapGet hi.1 hi.2) wc)

/-- GROUP BY stage on the heap: the source builds a fresh `result` array; on
a thrown error the heap is returned as-is and the error propagates. -/
def groupStageH (cols : List Str) (g : Option Str) (hi : Heap × ℕ) :
    (Heap × ℕ) × Option Str :=
  match g with
  | none => (hi, none)
  | some gc =>
    match applyGroupBy (heapGet hi.1 hi.2) cols gc with
    | .ok rows => (heapAlloc hi.1 rows, none)
    | .error e => (hi, some e)

/-- ORDER BY stage on the heap: `Array.prototype.sort` sorts *in place* and
returns its argument — same id, mutated contents. -/
def orderStageH (o : Option Str) (hi : Heap × ℕ) : Heap × ℕ :=
  match o with
  | none => hi
  | some oc => (hi.1.set hi.2 (applyOrderBy (heapGet hi.1 hi.2) oc), hi.2)

/-- LIMIT stage on the heap: `Array.prototype.slice` allocates. -/
def limitStageH (lim : Option ℕ) (hi : Heap × ℕ) : Heap × ℕ :=
  match lim with
  | none => hi
  | some n => heapAlloc hi.1 ((heapGet hi.1 hi.2).take n)

/-- Projection stage on the heap: `Array.prototype.map` allocates. -/
def projectStageH (p : SelectParts) (hi : Heap × ℕ) : Heap × ℕ :=
  if p.groupByClause.isNone && !(p.columns.headI == "*".toList) then
    heapAlloc hi.1 ((heapGet hi.1 hi.2).map (projectRow p.columns))
  else hi

/-- `handleSelectQuery` on the heap (sqlEngine.ts lines 33-90): load (or hit
the cache), spread-copy into a fresh array, then run the pipeline stages. -/
def execSelectHeap (provider : Str → List Row) (st : EngineSt) (p : SelectParts)
    (name : Str) : EngineSt × Except Str (List Row) :=
  let s1 := loadTableHeap provider st name
  let tableData := heapGet s1.1.heap s1.2
  if tableData.length = 0 then (s1.1, .error ("Table not found or empty".toList))
  else
    let hi0 := heapAlloc s1.1.heap tableData
    let hi1 := whereStageH p.whereClause hi0
    match groupStageH p.columns p.groupByClause hi1 with
    | (hi2, some e) => (⟨s1.1.cache, hi2.1⟩, .error e)
    | (hi2, none) =>
      let hi3 := orderStageH p.orderByClause hi2
      let hi4 := limitStageH p.limit hi3
      let hi5 := projectStageH p hi4
      (⟨s1.1.cache, hi5.1⟩, .ok (heapGet hi5.1 hi5.2))

/-- The two recognised query forms of `executeQuery` (sqlEngine.ts
lines 11-31): a SELECT query, or a bare table name. -/
inductive QueryForm where
  | select (p : SelectParts) (table : Str)
  | bare (table : Str)

/-- `executeQuery` on the heap: dispatch on the query form.  The bare-table
form (`getTableData`, lines 99-110) returns the cached array itself without
copying and without running any pipeline stage. -/
def execQueryHeap (provider : Str → List Row) (st : EngineSt) :
    QueryForm → EngineSt × Except Str (List Row)
  | .select p name => execSelectHeap provider st p name
  | .bare name =>
    let s1 := loadTableHeap provider st name
    (s1.1, .ok (heapGet s1.1.heap s1.2))

/-- Whether a value is a number. -/
def Value.isNum : Value → Bool
  | .num _ => true
  | _ => false

/-- The numeric payload of a value-typed column (`0` for non-numbers); used
only to *state* the ORDER BY claim over number-valued columns. -/
def numValAt (r : Row) (c : Str) : ℚ :=
  match rowGet r c with
  | .num q => q
  | _ => 0

/-- The parsed order terms of the clause `a ASC, b DESC`. -/
def abOrderParts : List Str := ["a ASC".toList, "b DESC".toList]

/-- The comparator-or-equal relation `cmp(r, s) <= 0` of `applyOrderBy` for
the clause `a ASC, b DESC` (the merge relation of the stable sort). -/
def abLe (r s : Row) : Bool := decide (cmpRows abOrderParts r s ≤ 0)

/-- `abLe` restricted to the rows of a fixed list (used to obtain totality
and transitivity from the number-typedness of that list's rows). -/
def abLeSub (data : List Row) (x y : {r : Row // r ∈ data}) : Bool := abLe x.1 y.1

/-- The key list of the insertion-ordered group map. -/
def keysOf (gs : List (Str × List Row)) : List Str := gs.map Prod.fst

/-- The total number of rows stored across all buckets of the group map. -/
def sumSizes (gs : List (Str × List Row)) : ℕ := (gs.map (fun g => g.2.length)).sum

/-! ## Theorems -/

/-- Property read on a non-empty row: head key first, then the tail. -/
theorem rowGet_cons (p : Str × Value) (l : Row) (c : Str) :
    rowGet (p :: l) c = if p.1 == c then p.2 else rowGet l c := by
  by_cases h : p.1 == c
  · simp [rowGet, h]
  · simp [rowGet, h]

/-- Reading back a key just written reads the written value (overwrite case). -/
theorem rowGet_map_overwrite (k : Str) (v : Value) :
    ∀ r : Row, rowHas r k = true →
      rowGet (r.map (fun p => if p.1 == k then (p.1, v) else p)) k = v := by
  intro r
  induction r with
  | nil => intro h; exact absurd h (by simp [rowHas])
  | cons p rest ih =>
    intro h
    by_cases hp : p.1 == k
    · rw [List.map_cons, if_pos hp, rowGet_cons]
      rw [if_pos hp]
    · rw [List.map_cons, if_neg hp, rowGet_cons, if_neg hp]
      refine ih ?_
      simp only [rowHas, List.any_cons, hp, Bool.false_or] at h
      exact h

/-- Reading back a key just written reads the written value (append case). -/
theorem rowGet_append_new (k : Str) (v : Value) :
    ∀ r : Row, rowHas r k = false → rowGet (r ++ [(k, v)]) k = v := by
  intro r
  induction r with
  | nil =>
    intro _
    rw [List.nil_append, rowGet_cons, if_pos (by simp)]
  | cons p rest ih =>
    intro h
    simp only [rowHas, List.any_cons, Bool.or_eq_false_iff] at h
    rw [List.cons_append, rowGet_cons, if_neg (by simp [h.1])]
    exact ih (by simp [rowHas, h.2])

/-- `row[k] = v` followed by reading `row[k]` yields `v`. -/
theorem rowGet_rowSet_self (r : Row) (k : Str) (v : Value) :
    rowGet (rowSet r k v) k = v := by
  unfold rowSet
  by_cases h : rowHas r k
  · rw [if_pos h]
    exact rowGet_map_overwrite k v r h
  · rw [if_neg h]
    exact rowGet_append_new k v r (by simpa using h)

/-- **C1.**  The claim says the condition evaluator tries longer operators
before operators that are textual prefixes of them, so that `col >= v`
resolves to `>=` and keeps exactly the rows with `Number(col) >= Number(v)`.
The code does the opposite: the operator list is walked in source order with
`=` first, and a condition written with `>=` contains `=`, so it is split at
the `=`.  On the row `{unitPrice: 20}` the condition `unitPrice >= 10`
splits into column `"unitPrice >"` and literal `"10"`; the column is absent,
so the row is *excluded* even though `20 >= 10` — while the same row passes
`unitPrice > 10`, whose operator really is reachable.  (The `>=`, `<=` and
`!=` cases of the source's `switch` are unreachable dead code.) -/
theorem C1_ge_condition_splits_at_eq :
    evaluateCondition [("unitPrice".toList, Value.num 20)] "unitPrice >= 10".toList = false ∧
    applyWhereClause [[("unitPrice".toList, Value.num 20)]] "unitPrice >= 10".toList = [] ∧
    evaluateCondition [("unitPrice".toList, Value.num 20)] "unitPrice > 10".toList = true := by
  refine ⟨by decide, by decide, by decide⟩

/-- **C2.**  The claim says a GROUP BY query whose select list contains
`FOO(unitPrice)` fails with an `UnsupportedAggregation` error.  It does not:
`isAggregationColumn` rejects `FOO(unitPrice)` (its name is not in the fixed
list), so the column never reaches `calculateAggregation`'s `default:` throw;
it falls into the plain-column branch and the query *succeeds*, returning the
first row's (absent) `FOO(unitPrice)` property, i.e. `undefined`. -/
theorem C2_unknown_aggregate_returns_result_not_error :
    isAggregationColumn "FOO(unitPrice)".toList = false ∧
    applyGroupBy [[("categoryID".toList, Value.str "1".toList),
        ("unitPrice".toList, Value.str "18".toList)]]
      ["FOO(unitPrice)".toList] "categoryID".toList =
      Except.ok [[("categoryID".toList, Value.str "1".toList),
        ("FOO(unitPrice)".toList, Value.undefined)]] := by
  refine ⟨by decide, by decide⟩

/-- **C3, counterexample.**  The claim says `COUNT(column)` over a group
whose values of the column are all `Null` yields `0`.  It yields `null`: the
`values.length === 0` early return precedes the `switch`, so on the
one-row group `[{a: null}]` the aggregate `COUNT(a)` is `null`, not `0`. -/
theorem C3_count_all_null_is_null_not_zero :
    calculateAggregation [[("a".toList, Value.null)]] "COUNT".toList "a".toList =
      Except.ok Value.null ∧
    calculateAggregation [[("a".toList, Value.null)]] "COUNT".toList "a".toList ≠
      Except.ok (Value.num 0) := by
  refine ⟨by decide, by decide⟩

/-- The filtered value list of `calculateAggregation` is empty when every
value of the column in the group is `Null` or missing. -/
theorem aggValues_eq_nil (groupRows : List Row) (columnName : Str)
    (h : ∀ r ∈ groupRows, rowGet r columnName = Value.null ∨ rowGet r columnName = Value.undefined) :
    (groupRows.map (fun r => rowGet r columnName)).filter
      (fun v => !(v == Value.null) && !(v == Value.undefined)) = [] := by
  rw [List.filter_eq_nil_iff]
  intro v hv
  rcases List.mem_map.mp hv with ⟨r, hr, rfl⟩
  rcases h r hr with h2 | h2 <;> simp [h2]

/-- **C3, amended.**  On a group where every value of the aggregated column
is `Null`/missing, *all* aggregates — `SUM`, `AVG`, `MIN`, `MAX` **and**
`COUNT(column)` — yield `Null` (`COUNT` does not yield `0`: the empty-values
early return runs before the `switch`). -/
theorem C3_all_null_aggregates_yield_null (groupRows : List Row)
    (functionName columnName : Str)
    (_hfn : functionName ∈ aggregationFunctions)
    (h : ∀ r ∈ groupRows, rowGet r columnName = Value.null ∨ rowGet r columnName = Value.undefined) :
    calculateAggregation groupRows functionName columnName = Except.ok Value.null := by
  unfold calculateAggregation
  rw [aggValues_eq_nil groupRows columnName h]
  rfl

/-- **C3, witness** for `C3_all_null_aggregates_yield_null`: a concrete
two-row group whose `a` column is `null` on one row and absent on the other,
aggregated with `SUM`. -/
theorem C3_all_null_witness :
    calculateAggregation [[("a".toList, Value.null)], [("b".toList, Value.num 1)]]
      "SUM".toList "a".toList = Except.ok Value.null :=
  C3_all_null_aggregates_yield_null _ _ _ (by decide) (by decide)

/-- **C4, counterexample.**  The claim says the `"NULL"` group-key sentinel
groups *distinct* from a real value spelled `"NULL"`, so a row with a null
group-by value and a row whose value is the string `"NULL"` land in different
groups.  They land in the same group: `String(row[col] || 'NULL')` renders
both as the key `"NULL"`, so grouping the two rows `{c: null}` and
`{c: "NULL"}` by `c` produces a *single* output row with `COUNT(*) = 2`
(two groups would have produced two rows of count 1). -/
theorem C4_null_and_NULL_string_share_a_group :
    applyGroupBy [[("c".toList, Value.null)], [("c".toList, Value.str "NULL".toList)]]
      ["COUNT(*)".toList] "c".toList =
      Except.ok [[("c".toList, Value.null), ("COUNT(*)".toList, Value.num 2)]] := by
  decide

/-- **C4, amended.**  The group key is the ordered tuple of the group-by
columns' string forms with falsy values — `Null`/missing among them —
rendered as the literal sentinel `"NULL"`; this sentinel *collides* with any
real value spelled `"NULL"`: a row with a null group-by value and a row whose
value is the actual string `"NULL"` get the same group key and land in the
same group. -/
theorem C4_null_sentinel_collides_with_NULL_string (r1 r2 : Row) (c : Str)
    (h1 : rowGet r1 c = Value.null) (h2 : rowGet r2 c = Value.str "NULL".toList) :
    groupKeyOf [c] r1 = groupKeyOf [c] r2 ∧
    (buildGroups [c] [r1, r2]).length = 1 := by
  have hk1 : groupKeyOf [c] r1 = "NULL".toList := by
    simp [groupKeyOf, h1, jsOr, truthy, valueToStr, strIntercalate]
  have hk2 : groupKeyOf [c] r2 = "NULL".toList := by
    simp [groupKeyOf, h2, jsOr, truthy, valueToStr, strIntercalate]
  refine ⟨hk1.trans hk2.symm, ?_⟩
  unfold buildGroups
  simp only [List.foldl_cons, List.foldl_nil, hk1, hk2]
  rw [show insertGrouped [] "NULL".toList r1 = [("NULL".toList, [r1])] from rfl]
  rw [show insertGrouped [("NULL".toList, [r1])] "NULL".toList r2 =
      [("NULL".toList, [r1, r2])] from rfl]
  rfl

/-- **C4, witness** for `C4_null_sentinel_collides_with_NULL_string`: the
rows `{c: null}` and `{c: "NULL"}` grouped by `c`. -/
theorem C4_null_sentinel_witness :
    groupKeyOf ["c".toList] [("c".toList, Value.null)] =
      groupKeyOf ["c".toList] [("c".toList, Value.str "NULL".toList)] ∧
    (buildGroups ["c".toList]
      [[("c".toList, Value.null)], [("c".toList, Value.str "NULL".toList)]]).length = 1 :=
  C4_null_sentinel_collides_with_NULL_string _ _ _ (by decide) (by decide)

/-- **C5.**  WHERE filtering is conjunctive over the split condition tokens
regardless of the separators written: a row is kept iff every split condition
holds on it; both `AND` and `OR` split the clause into the same tokens, so a
clause written with `OR` filters exactly like the same clause written with
`AND`. -/
theorem C5_where_combines_all_conditions_with_and :
    (∀ (data : List Row) (w : Str) (row : Row),
      row ∈ applyWhereClause data w ↔
        row ∈ data ∧ ∀ c ∈ conditionTokens w, evaluateCondition row (strTrim c) = true) ∧
    conditionTokens "a = 1 AND b = 2".toList = ["a = 1".toList, "b = 2".toList] ∧
    conditionTokens "a = 1 OR b = 2".toList = ["a = 1".toList, "b = 2".toList] ∧
    (∀ data : List Row, applyWhereClause data "a = 1 AND b = 2".toList =
      applyWhereClause data "a = 1 OR b = 2".toList) := by
  refine ⟨?_, by decide, by decide, ?_⟩
  · intro data w row
    simp [applyWhereClause, List.mem_filter, List.all_eq_true]
  · intro data
    unfold applyWhereClause
    rw [show conditionTokens "a = 1 AND b = 2".toList =
      conditionTokens "a = 1 OR b = 2".toList from by decide]

/-- Inserting a row into the group map grows the total stored row count by
exactly one (the row goes into exactly one bucket). -/
theorem sumSizes_insertGrouped (gs : List (Str × List Row)) (k : Str) (r : Row) :
    sumSizes (insertGrouped gs k r) = sumSizes gs + 1 := by
  induction gs with
  | nil => rfl
  | cons g rest ih =>
    by_cases h : g.1 == k
    · rw [show insertGrouped (g :: rest) k r = (g.1, g.2 ++ [r]) :: rest from by
        simp [insertGrouped, h]]
      show (g.2 ++ [r]).length + sumSizes rest = g.2.length + sumSizes rest + 1
      rw [List.length_append]
      simp
      omega
    · rw [show insertGrouped (g :: rest) k r = g :: insertGrouped rest k r from by
        simp [insertGrouped, h]]
      show g.2.length + sumSizes (insertGrouped rest k r) = g.2.length + sumSizes rest + 1
      rw [ih]
      omega

/-- Key membership after inserting into the group map. -/
theorem mem_keys_insertGrouped (gs : List (Str × List Row)) (k k2 : Str) (r : Row) :
    k2 ∈ keysOf (insertGrouped gs k r) ↔ k2 ∈ keysOf gs ∨ k2 = k := by
  induction gs with
  | nil =>
    show k2 ∈ [k] ↔ k2 ∈ ([] : List Str) ∨ k2 = k
    simp
  | cons g rest ih =>
    by_cases h : g.1 == k
    · have hk : g.1 = k := by simpa using h
      rw [show insertGrouped (g :: rest) k r = (g.1, g.2 ++ [r]) :: rest from by
        simp [insertGrouped, h]]
      show k2 ∈ g.1 :: keysOf rest ↔ k2 ∈ g.1 :: keysOf rest ∨ k2 = k
      constructor
      · exact Or.inl
      · rintro (hm | rfl)
        · exact hm
        · exact hk ▸ List.mem_cons_self _ _
    · rw [show insertGrouped (g :: rest) k r = g :: insertGrouped rest k r from by
        simp [insertGrouped, h]]
      show k2 ∈ g.1 :: keysOf (insertGrouped rest k r) ↔ k2 ∈ g.1 :: keysOf rest ∨ k2 = k
      rw [List.mem_cons, ih, List.mem_cons]
      tauto

/-- Inserting into the group map preserves key uniqueness. -/
theorem nodup_keys_insertGrouped (gs : List (Str × List Row)) (k : Str) (r : Row)
    (h : (keysOf gs).Nodup) : (keysOf (insertGrouped gs k r)).Nodup := by
  induction gs with
  | nil => simp [insertGrouped, keysOf]
  | cons g rest ih =>
    simp only [keysOf, List.map_cons, List.nodup_cons] at h
    by_cases hk : g.1 == k
    · simp only [insertGrouped, hk, if_true, ite_true, keysOf, List.map_cons,
        List.nodup_cons]
      exact ⟨h.1, h.2⟩
    · have hne : g.1 ≠ k := by simpa using hk
      simp only [insertGrouped, hk, Bool.false_eq_true, if_false, ite_false, keysOf,
        List.map_cons, List.nodup_cons]
      refine ⟨?_, ih h.2⟩
      rw [show (insertGrouped rest k r).map Prod.fst = keysOf (insertGrouped rest k r) from rfl,
        mem_keys_insertGrouped]
      rintro (hmem | rfl)
      · exact h.1 hmem
      · exact hne rfl

/-- The key set after inserting into the group map. -/
theorem toFinset_keys_insertGrouped (gs : List (Str × List Row)) (k : Str) (r : Row) :
    (keysOf (insertGrouped gs k r)).toFinset = insert k (keysOf gs).toFinset := by
  ext k2
  simp [mem_keys_insertGrouped]
  tauto

/-- The grouping fold stores every input row: total bucket sizes grow by the
number of rows folded in. -/
theorem sumSizes_buildGroups_go (cols : List Str) :
    ∀ (data : List Row) (gs : List (Str × List Row)),
      sumSizes (data.foldl (fun gs row => insertGrouped gs (groupKeyOf cols row) row) gs) =
        sumSizes gs + data.length := by
  intro data
  induction data with
  | nil => simp
  | cons r rest ih =>
    intro gs
    simp only [List.foldl_cons, List.length_cons]
    rw [ih, sumSizes_insertGrouped]
    omega

/-- The grouping fold keeps keys unique. -/
theorem nodup_keys_buildGroups_go (cols : List Str) :
    ∀ (data : List Row) (gs : List (Str × List Row)),
      (keysOf gs).Nodup →
      (keysOf (data.foldl (fun gs row => insertGrouped gs (groupKeyOf cols row) row) gs)).Nodup := by
  intro data
  induction data with
  | nil => exact fun gs h => h
  | cons r rest ih =>
    intro gs h
    simp only [List.foldl_cons]
    exact ih _ (nodup_keys_insertGrouped _ _ _ h)

/-- The key set built by the grouping fold is the set of the rows' keys. -/
theorem toFinset_keys_buildGroups_go (cols : List Str) :
    ∀ (data : List Row) (gs : List (Str × List Row)),
      (keysOf (data.foldl (fun gs row => insertGrouped gs (groupKeyOf cols row) row) gs)).toFinset =
        (keysOf gs).toFinset ∪ (data.map (groupKeyOf cols)).toFinset := by
  intro data
  induction data with
  | nil => simp
  | cons r rest ih =>
    intro gs
    simp only [List.foldl_cons, List.map_cons]
    rw [ih, toFinset_keys_insertGrouped, List.toFinset_cons, Finset.insert_union,
      Finset.union_insert]

/-- `buildGroups` produces one bucket per distinct group key of the data. -/
theorem length_buildGroups (cols : List Str) (data : List Row) :
    (buildGroups cols data).length = ((data.map (groupKeyOf cols)).toFinset).card := by
  have h1 : (keysOf (buildGroups cols data)).Nodup :=
    nodup_keys_buildGroups_go cols data [] (by simp [keysOf])
  have h2 : (keysOf (buildGroups cols data)).toFinset = (data.map (groupKeyOf cols)).toFinset := by
    rw [show buildGroups cols data =
      data.foldl (fun gs row => insertGrouped gs (groupKeyOf cols row) row) [] from rfl,
      toFinset_keys_buildGroups_go]
    simp [keysOf]
  calc (buildGroups cols data).length = (keysOf (buildGroups cols data)).length := by
        simp [keysOf]
    _ = (keysOf (buildGroups cols data)).toFinset.card := (List.toFinset_card_of_nodup h1).symm
    _ = _ := by rw [h2]

/-- `buildGroups` partitions the data: bucket sizes sum to the row count. -/
theorem sumSizes_buildGroups (cols : List Str) (data : List Row) :
    sumSizes (buildGroups cols data) = data.length := by
  have := sumSizes_buildGroups_go cols data []
  simpa [sumSizes] using this

/-- `List.mapM` over `Except` succeeds pointwise. -/
theorem mapM_ok_of_forall {α β : Type} (f : α → Except Str β) (φ : α → β) :
    ∀ l : List α, (∀ a ∈ l, f a = .ok (φ a)) → l.mapM f = .ok (l.map φ)
  | [], _ => rfl
  | a :: l, h => by
    have h1 := h a (List.mem_cons_self a l)
    have h2 := mapM_ok_of_forall f φ l (fun x hx => h x (List.mem_cons_of_mem a hx))
    simp only [List.mapM_cons, h1, h2, List.map_cons]
    rfl

/-- Left fold of repeated addition is the sum of the mapped list. -/
theorem foldl_add_eq_sum {α : Type} (c : α → ℚ) :
    ∀ (l : List α) (init : ℚ), l.foldl (fun n a => n + c a) init = init + (l.map c).sum
  | [], init => by simp
  | a :: l, init => by
    simp only [List.foldl_cons, List.map_cons, List.sum_cons]
    rw [foldl_add_eq_sum c l (init + c a)]
    ring

/-- Closed form of `processGroup` for the query
`SELECT categoryID, COUNT(*) ... GROUP BY categoryID`: the group column takes
the first row's value (overwriting the key-derived string) and `COUNT(*)`
takes the bucket size. -/
theorem processGroup_categoryID_count (g : Str × List Row) :
    processGroup ["categoryID".toList, "COUNT(*)".toList] ["categoryID".toList] g.1 g.2 =
      Except.ok [("categoryID".toList, rowGet (firstRow g.2) "categoryID".toList),
        ("COUNT(*)".toList, Value.num g.2.length)] := rfl

/-- **C6, counterexample.**  The claim says
`SELECT categoryID, COUNT(*) FROM products GROUP BY categoryID` produces one
output row per *distinct `categoryID` value* present in the input.  The key
construction collapses distinct values: the two rows with the distinct
`categoryID` values `""` and `"NULL"` (the empty string is falsy, so both
render as the `"NULL"` sentinel) produce a *single* output row with
`COUNT(*) = 2` instead of two rows. -/
theorem C6_distinct_values_share_one_output_row :
    rowGet [("categoryID".toList, Value.str [])] "categoryID".toList ≠
      rowGet [("categoryID".toList, Value.str "NULL".toList)] "categoryID".toList ∧
    applyGroupBy
      [[("categoryID".toList, Value.str [])], [("categoryID".toList, Value.str "NULL".toList)]]
      ["categoryID".toList, "COUNT(*)".toList] "categoryID".toList =
      Except.ok [[("categoryID".toList, Value.str []), ("COUNT(*)".toList, Value.num 2)]] := by
  refine ⟨by decide, by decide⟩

/-- **C6, amended.**  `SELECT categoryID, COUNT(*) FROM products GROUP BY
categoryID` produces exactly one output row per distinct *group key* of
`categoryID` (its string form, with every falsy value rendered as the
`"NULL"` sentinel) present in the input — not per distinct value, since
distinct values can share a key — and the sum of all output `COUNT(*)`
values equals the number of input rows. -/
theorem C6_one_output_row_per_group_key_and_counts_sum_to_input (data : List Row) :
    ∃ res,
      applyGroupBy data ["categoryID".toList, "COUNT(*)".toList] "categoryID".toList =
        Except.ok res ∧
      res.length = ((data.map (groupKeyOf ["categoryID".toList])).toFinset).card ∧
      res.foldl (fun n r =>
        n + (match rowGet r "COUNT(*)".toList with | Value.num q => q | _ => 0)) 0 =
        (data.length : ℚ) := by
  have hsplit : (strSplitOn "categoryID".toList ",".toList).map strTrim =
      ["categoryID".toList] := by decide
  refine ⟨(buildGroups ["categoryID".toList] data).map (fun g =>
    [("categoryID".toList, rowGet (firstRow g.2) "categoryID".toList),
      ("COUNT(*)".toList, Value.num g.2.length)]), ?_, ?_, ?_⟩
  · show (buildGroups ["categoryID".toList] data).mapM
      (fun g => processGroup ["categoryID".toList, "COUNT(*)".toList]
        ["categoryID".toList] g.1 g.2) = _
    exact mapM_ok_of_forall _ _ _ (fun g _ => processGroup_categoryID_count g)
  · rw [List.length_map, length_buildGroups]
  · rw [List.foldl_map]
    show (buildGroups ["categoryID".toList] data).foldl
      (fun n g => n + ((g.2.length : ℕ) : ℚ)) 0 = (data.length : ℚ)
    rw [foldl_add_eq_sum (fun g : Str × List Row => ((g.2.length : ℕ) : ℚ)), zero_add]
    rw [show (buildGroups ["categoryID".toList] data).map
        (fun g : Str × List Row => ((g.2.length : ℕ) : ℚ)) =
      ((buildGroups ["categoryID".toList] data).map (fun g => g.2.length)).map
        Nat.cast from by rw [List.map_map]; rfl]
    rw [← Nat.cast_list_sum]
    rw [show ((buildGroups ["categoryID".toList] data).map (fun g => g.2.length)).sum =
      sumSizes (buildGroups ["categoryID".toList] data) from rfl]
    rw [sumSizes_buildGroups]

/-- **C8.**  LIMIT clamps: when the same query without its LIMIT clause
succeeds with result `res` and the limit `n` is at least `res.length` (in
particular whenever `n` exceeds the number of available rows), the query
*with* `LIMIT n` succeeds with exactly the same rows — `slice(0, n)` never
errors on an out-of-range count. -/
theorem C8_limit_exceeding_rowcount_returns_all_rows (columns : List Str)
    (w g o : Option Str) (n : ℕ) (tableData res : List Row)
    (hok : handleSelect ⟨columns, w, g, o, none⟩ tableData = Except.ok res)
    (hn : res.length ≤ n) :
    handleSelect ⟨columns, w, g, o, some n⟩ tableData = Except.ok res := by
  unfold handleSelect at hok ⊢
  by_cases h0 : tableData.length = 0
  · rw [if_pos h0] at hok
    exact absurd hok (by simp)
  · rw [if_neg h0] at hok ⊢
    dsimp only at hok ⊢
    split at hok
    · exact absurd hok (by simp)
    · rename_i r2 heq
      injection hok with hok
      set r3 := (match o with
        | some oc => applyOrderBy r2 oc
        | none => r2) with hr3
      have hif : ∀ x : List Row,
          (if (g.isNone && !(columns.headI == "*".toList)) = true
            then x.map (projectRow columns) else x).length = x.length := by
        intro x
        split
        · rw [List.length_map]
        · rfl
      have hl3 : r3.length ≤ n := by
        rw [← hif r3, hok]
        exact hn
      rw [List.take_of_length_le hl3, hok]

/-- **C8, witness** for `C8_limit_exceeding_rowcount_returns_all_rows`:
`LIMIT 1000` on a five-row table returns all five rows without error. -/
theorem C8_limit_witness :
    handleSelect ⟨["*".toList], none, none, none, some 1000⟩
      [[("a".toList, Value.num 1)], [("a".toList, Value.num 2)], [("a".toList, Value.num 3)],
        [("a".toList, Value.num 4)], [("a".toList, Value.num 5)]] =
    Except.ok
      [[("a".toList, Value.num 1)], [("a".toList, Value.num 2)], [("a".toList, Value.num 3)],
        [("a".toList, Value.num 4)], [("a".toList, Value.num 5)]] :=
  C8_limit_exceeding_rowcount_returns_all_rows _ _ _ _ 1000 _ _ (by decide) (by decide)

/-- `processGroup` on the select list `[count(*)]` (lower case): the column
is parsed as an aggregation `COUNT` over the column literally named `*`, so
the output row carries whatever `calculateAggregation` returns for it. -/
theorem processGroup_lowercase_count_star (g : List Row) (c key : Str) (v : Value)
    (hcalc : calculateAggregation g "COUNT".toList "*".toList = Except.ok v) :
    processGroup ["count(*)".toList] [c] key g =
      Except.ok (rowSet [(c, splitKeyValue (strSplitOn key "|".toList) 0)]
        "count(*)".toList v) := by
  show Except.bind (Except.bind (calculateAggregation g "COUNT".toList "*".toList)
      (fun v => Except.ok (rowSet [(c, splitKeyValue (strSplitOn key "|".toList) 0)]
        "count(*)".toList v))) (fun b => Except.pure b) = _
  rw [hcalc]
  rfl

/-- **C10.**  The count-all aggregate is recognised only in the exact
upper-case spelling `COUNT(*)`: for a non-empty group (over rows with no
column literally named `*`), a select column written `count(*)` bypasses the
case-sensitive special case, is parsed as `COUNT` over the column named `*`,
whose value list is empty, and therefore yields `Null` in the output row
rather than the group's (positive) row count. -/
theorem C10_lowercase_count_star_yields_null (g : List Row) (c : Str)
    (hne : g ≠ [])
    (h : ∀ r ∈ g, rowGet r "*".toList = Value.undefined) :
    ("count(*)".toList = "COUNT(*)".toList → False) ∧
    isAggregationColumn "count(*)".toList = true ∧
    parseAggregationColumn "count(*)".toList = Except.ok ("COUNT".toList, "*".toList) ∧
    calculateAggregation g "COUNT".toList "*".toList = Except.ok Value.null ∧
    g.length ≠ 0 ∧
    ∀ key, ∃ row, processGroup ["count(*)".toList] [c] key g = Except.ok row ∧
      rowGet row "count(*)".toList = Value.null ∧
      rowGet row "count(*)".toList ≠ Value.num g.length := by
  have hcalc : calculateAggregation g "COUNT".toList "*".toList = Except.ok Value.null := by
    unfold calculateAggregation
    rw [aggValues_eq_nil g "*".toList (fun r hr => Or.inr (h r hr))]
    rfl
  refine ⟨by decide, by decide, by decide, hcalc, by simpa using hne, ?_⟩
  intro key
  refine ⟨rowSet [(c, splitKeyValue (strSplitOn key "|".toList) 0)]
    "count(*)".toList Value.null, processGroup_lowercase_count_star g c key _ hcalc, ?_⟩
  have hget : rowGet (rowSet [(c, splitKeyValue (strSplitOn key "|".toList) 0)]
      "count(*)".toList Value.null) "count(*)".toList = Value.null :=
    rowGet_rowSet_self _ _ _
  exact ⟨hget, by rw [hget]; exact fun hx => Value.noConfusion hx⟩

/-- Allocating a fresh array preserves every array below the watermark `n`,
keeps the heap at least `n` long, and hands out an id at or above `n`. -/
theorem heapAlloc_inv (h0 h : Heap) (n : ℕ) (rows : List Row)
    (hlen : n ≤ h.length) (hpre : ∀ i < n, h[i]? = h0[i]?) :
    n ≤ (heapAlloc h rows).1.length ∧ n ≤ (heapAlloc h rows).2 ∧
      ∀ i < n, (heapAlloc h rows).1[i]? = h0[i]? := by
  refine ⟨?_, hlen, ?_⟩
  · rw [show (heapAlloc h rows).1 = h ++ [rows] from rfl, List.length_append]
    omega
  · intro i hi
    rw [show (heapAlloc h rows).1 = h ++ [rows] from rfl,
      List.getElem?_append_left (by omega)]
    exact hpre i hi

/-- The WHERE stage preserves every array below the watermark. -/
theorem whereStageH_inv (w : Option Str) (h0 : Heap) (n : ℕ) (hi : Heap × ℕ)
    (h1 : n ≤ hi.1.length) (h2 : n ≤ hi.2) (h3 : ∀ i < n, hi.1[i]? = h0[i]?) :
    n ≤ (whereStageH w hi).1.length ∧ n ≤ (whereStageH w hi).2 ∧
      ∀ i < n, (whereStageH w hi).1[i]? = h0[i]? := by
  cases w with
  | none => exact ⟨h1, h2, h3⟩
  | some wc => exact heapAlloc_inv h0 hi.1 n _ h1 h3

/-- The GROUP BY stage preserves every array below the watermark (also on the
error path). -/
theorem groupStageH_inv (cols : List Str) (g : Option Str) (h0 : Heap) (n : ℕ)
    (hi : Heap × ℕ)
    (h1 : n ≤ hi.1.length) (h2 : n ≤ hi.2) (h3 : ∀ i < n, hi.1[i]? = h0[i]?) :
    n ≤ (groupStageH cols g hi).1.1.length ∧ n ≤ (groupStageH cols g hi).1.2 ∧
      ∀ i < n, (groupStageH cols g hi).1.1[i]? = h0[i]? := by
  cases g with
  | none => exact ⟨h1, h2, h3⟩
  | some gc =>
    unfold groupStageH
    dsimp only
    cases applyGroupBy (heapGet hi.1 hi.2) cols gc with
    | ok rows => exact heapAlloc_inv h0 hi.1 n rows h1 h3
    | error e => exact ⟨h1, h2, h3⟩

/-- The ORDER BY stage sorts in place through the current id, which sits at
or above the watermark, so every array below the watermark is preserved. -/
theorem orderStageH_inv (o : Option Str) (h0 : Heap) (n : ℕ) (hi : Heap × ℕ)
    (h1 : n ≤ hi.1.length) (h2 : n ≤ hi.2) (h3 : ∀ i < n, hi.1[i]? = h0[i]?) :
    n ≤ (orderStageH o hi).1.length ∧ n ≤ (orderStageH o hi).2 ∧
      ∀ i < n, (orderStageH o hi).1[i]? = h0[i]? := by
  cases o with
  | none => exact ⟨h1, h2, h3⟩
  | some oc =>
    refine ⟨?_, h2, ?_⟩
    · rw [show (orderStageH (some oc) hi).1 =
        hi.1.set hi.2 (applyOrderBy (heapGet hi.1 hi.2) oc) from rfl, List.length_set]
      exact h1
    · intro i hilt
      rw [show (orderStageH (some oc) hi).1 =
        hi.1.set hi.2 (applyOrderBy (heapGet hi.1 hi.2) oc) from rfl,
        List.getElem?_set_ne (by omega)]
      exact h3 i hilt

/-- The LIMIT stage preserves every array below the watermark. -/
theorem limitStageH_inv (lim : Option ℕ) (h0 : Heap) (n : ℕ) (hi : Heap × ℕ)
    (h1 : n ≤ hi.1.length) (h2 : n ≤ hi.2) (h3 : ∀ i < n, hi.1[i]? = h0[i]?) :
    n ≤ (limitStageH lim hi).1.length ∧ n ≤ (limitStageH lim hi).2 ∧
      ∀ i < n, (limitStageH lim hi).1[i]? = h0[i]? := by
  cases lim with
  | none => exact ⟨h1, h2, h3⟩
  | some m => exact heapAlloc_inv h0 hi.1 n _ h1 h3

/-- The projection stage preserves every array below the watermark. -/
theorem projectStageH_inv (p : SelectParts) (h0 : Heap) (n : ℕ) (hi : Heap × ℕ)
    (h1 : n ≤ hi.1.length) (h2 : n ≤ hi.2) (h3 : ∀ i < n, hi.1[i]? = h0[i]?) :
    n ≤ (projectStageH p hi).1.length ∧ n ≤ (projectStageH p hi).2 ∧
      ∀ i < n, (projectStageH p hi).1[i]? = h0[i]? := by
  unfold projectStageH
  split
  · exact heapAlloc_inv h0 hi.1 n _ h1 h3
  · exact ⟨h1, h2, h3⟩

/-- `loadTableData` never disturbs existing cache entries or existing arrays:
either the cache hits (state unchanged) or a fresh array is appended. -/
theorem loadTableHeap_inv (provider : Str → List Row) (st : EngineSt) (name : Str) :
    (∀ e, e ∈ st.cache → e ∈ (loadTableHeap provider st name).1.cache) ∧
    st.heap.length ≤ (loadTableHeap provider st name).1.heap.length ∧
    ∀ i < st.heap.length, (loadTableHeap provider st name).1.heap[i]? = st.heap[i]? := by
  cases hfind : st.cache.find? (fun e => e.1 == name) with
  | some e =>
    have heq : loadTableHeap provider st name = (st, e.2) := by
      unfold loadTableHeap
      rw [hfind]
    rw [heq]
    exact ⟨fun _ h => h, le_refl _, fun _ _ => rfl⟩
  | none =>
    have heq : loadTableHeap provider st name =
        (⟨st.cache ++ [(name, st.heap.length)], st.heap ++ [provider name]⟩,
          st.heap.length) := by
      unfold loadTableHeap
      rw [hfind]
      rfl
    rw [heq]
    refine ⟨fun e h => List.mem_append_left _ h, ?_, ?_⟩
    · show st.heap.length ≤ (st.heap ++ [provider name]).length
      rw [List.length_append]
      omega
    · intro i hi
      show (st.heap ++ [provider name])[i]? = st.heap[i]?
      exact List.getElem?_append_left hi

/-- **C9.**  `executeQuery` never mutates a fetched table's cached row
sequence: any table cached before execution is still cached at the same array
id afterwards, and that array's contents are identical before and after —
the spread copy `[...tableData]` gives the pipeline a fresh array, every
later stage either allocates a new array or (for the in-place sort) writes
through an id allocated during this query, and the bare-table form performs
no writes at all.  (Records are immutable values in the model: every property
write in the source targets a freshly created object literal.) -/
theorem C9_execute_preserves_cached_tables (provider : Str → List Row)
    (st : EngineSt) (q : QueryForm) (t : Str) (id : ℕ)
    (hmem : (t, id) ∈ st.cache) (hid : id < st.heap.length) :
    (t, id) ∈ (execQueryHeap provider st q).1.cache ∧
    heapGet (execQueryHeap provider st q).1.heap id = heapGet st.heap id := by
  cases q with
  | bare name =>
    obtain ⟨hc, _, hpre⟩ := loadTableHeap_inv provider st name
    refine ⟨hc _ hmem, ?_⟩
    show heapGet (loadTableHeap provider st name).1.heap id = heapGet st.heap id
    rw [heapGet, heapGet, hpre id hid]
  | select p name =>
    obtain ⟨hc, hlen, hpre⟩ := loadTableHeap_inv provider st name
    show (t, id) ∈ (execSelectHeap provider st p name).1.cache ∧
      heapGet (execSelectHeap provider st p name).1.heap id = heapGet st.heap id
    unfold execSelectHeap
    dsimp only
    split
    · refine ⟨hc _ hmem, ?_⟩
      show heapGet (loadTableHeap provider st name).1.heap id = heapGet st.heap id
      rw [heapGet, heapGet, hpre id hid]
    · obtain ⟨k1, k2, k3⟩ := heapAlloc_inv st.heap
        (loadTableHeap provider st name).1.heap st.heap.length
        (heapGet (loadTableHeap provider st name).1.heap
          (loadTableHeap provider st name).2) hlen hpre
      obtain ⟨w1, w2, w3⟩ := whereStageH_inv p.whereClause st.heap st.heap.length _ k1 k2 k3
      obtain ⟨g1, g2, g3⟩ :=
        groupStageH_inv p.columns p.groupByClause st.heap st.heap.length _ w1 w2 w3
      split
      · rename_i hi2 e heq
        have h21 : hi2 = (groupStageH p.columns p.groupByClause
            (whereStageH p.whereClause
              (heapAlloc (loadTableHeap provider st name).1.heap
                (heapGet (loadTableHeap provider st name).1.heap
                  (loadTableHeap provider st name).2)))).1 := by rw [heq]
        refine ⟨hc _ hmem, ?_⟩
        show heapGet hi2.1 id = heapGet st.heap id
        rw [heapGet, heapGet, h21, g3 id hid]
      · rename_i hi2 heq
        have h21 : hi2 = (groupStageH p.columns p.groupByClause
            (whereStageH p.whereClause
              (heapAlloc (loadTableHeap provider st name).1.heap
                (heapGet (loadTableHeap provider st name).1.heap
                  (loadTableHeap provider st name).2)))).1 := by rw [heq]
        have g1' : st.heap.length ≤ hi2.1.length := by rw [h21]; exact g1
        have g2' : st.heap.length ≤ hi2.2 := by rw [h21]; exact g2
        have g3' : ∀ i < st.heap.length, hi2.1[i]? = st.heap[i]? := by
          rw [h21]; exact g3
        obtain ⟨o1, o2, o3⟩ := orderStageH_inv p.orderByClause st.heap st.heap.length hi2
          g1' g2' g3'
        obtain ⟨l1, l2, l3⟩ := limitStageH_inv p.limit st.heap st.heap.length _ o1 o2 o3
        obtain ⟨j1, j2, j3⟩ := projectStageH_inv p st.heap st.heap.length _ l1 l2 l3
        refine ⟨hc _ hmem, ?_⟩
        show heapGet (projectStageH p (limitStageH p.limit
          (orderStageH p.orderByClause hi2))).1 id = heapGet st.heap id
        rw [heapGet, heapGet, j3 id hid]

/-- **C9, witness** for `C9_execute_preserves_cached_tables`: a state with
one cached one-row table `t` at array id `0`, queried with
`SELECT * FROM t LIMIT 1`. -/
theorem C9_execute_preserves_cached_tables_witness :
    ("t".toList, 0) ∈ (execQueryHeap (fun _ => [[("a".toList, Value.num 1)]])
      ⟨[("t".toList, 0)], [[[("a".toList, Value.num 2)]]]⟩
      (QueryForm.select ⟨["*".toList], none, none, none, some 1⟩ "t".toList)).1.cache ∧
    heapGet (execQueryHeap (fun _ => [[("a".toList, Value.num 1)]])
      ⟨[("t".toList, 0)], [[[("a".toList, Value.num 2)]]]⟩
      (QueryForm.select ⟨["*".toList], none, none, none, some 1⟩ "t".toList)).1.heap 0 =
    heapGet ([[[("a".toList, Value.num 2)]]] : Heap) 0 :=
  C9_execute_preserves_cached_tables _ _ _ _ _ (by decide) (by decide)

/-- **C10, witness** for `C10_lowercase_count_star_yields_null`: a concrete
one-row group, grouped under column `c`. -/
theorem C10_lowercase_count_star_witness :
    ("count(*)".toList = "COUNT(*)".toList → False) ∧
    isAggregationColumn "count(*)".toList = true ∧
    parseAggregationColumn "count(*)".toList = Except.ok ("COUNT".toList, "*".toList) ∧
    calculateAggregation [[("x".toList, Value.num 1)]] "COUNT".toList "*".toList =
      Except.ok Value.null ∧
    ([[("x".toList, Value.num 1)]] : List Row).length ≠ 0 ∧
    ∀ key, ∃ row, processGroup ["count(*)".toList] ["c".toList] key
        [[("x".toList, Value.num 1)]] = Except.ok row ∧
      rowGet row "count(*)".toList = Value.null ∧
      rowGet row "count(*)".toList ≠
        Value.num ([[("x".toList, Value.num 1)]] : List Row).length :=
  C10_lowercase_count_star_yields_null _ _ (by decide) (by decide)

/-- A value is a number iff it is `Value.num` of some rational. -/
theorem isNum_iff (v : Value) : v.isNum = true ↔ ∃ q, v = Value.num q := by
  cases v <;> simp [Value.isNum]

/-- The `a ASC, b DESC` comparator on rows whose `a` and `b` columns are
numbers: ascending on `a`, ties broken descending on `b`. -/
theorem cmpRows_ab_num (r s : Row) (qa qb qc qd : ℚ)
    (hra : rowGet r "a".toList = Value.num qa) (hrb : rowGet r "b".toList = Value.num qb)
    (hsa : rowGet s "a".toList = Value.num qc) (hsb : rowGet s "b".toList = Value.num qd) :
    cmpRows abOrderParts r s =
      if qa = qc then (if qb = qd then 0 else if qb < qd then 1 else -1)
      else (if qa < qc then -1 else 1) := by
  have h1 : splitWsRuns "a ASC".toList = ["a".toList, "ASC".toList] := by decide
  have h2 : splitWsRuns "b DESC".toList = ["b".toList, "DESC".toList] := by decide
  simp only [abOrderParts, cmpRows, h1, h2, List.headI, List.get?]
  rw [hra, hsa, hrb, hsb]
  simp only [beq_iff_eq, Value.num.injEq, jsLt, toNumberVal,
    show (strToLower "ASC".toList == "desc".toList) = false from by decide,
    show (strToLower "DESC".toList == "desc".toList) = true from by decide]
  by_cases hac : qa = qc
  · subst hac
    rw [if_pos rfl, if_pos rfl]
    by_cases hbd : qb = qd
    · subst hbd
      rw [if_pos rfl, if_pos rfl]
    · rw [if_neg hbd, if_neg hbd, if_pos (by decide)]
      by_cases hlt : qb < qd
      · rw [if_pos (by simp [hlt]), if_pos hlt]
        norm_num
      · rw [if_neg (by simp [hlt]), if_neg hlt]
  · rw [if_neg hac, if_neg hac, if_neg (by decide)]
    by_cases hlt : qa < qc
    · rw [if_pos (by simp [hlt]), if_pos hlt]
    · rw [if_neg (by simp [hlt]), if_neg hlt]

/-- The `a ASC, b DESC` comparator is non-positive, on number-typed rows, iff
`a` is strictly smaller or `a` ties and `b` is at least as large. -/
theorem cmpRows_ab_le_iff (r s : Row) (qa qb qc qd : ℚ)
    (hra : rowGet r "a".toList = Value.num qa) (hrb : rowGet r "b".toList = Value.num qb)
    (hsa : rowGet s "a".toList = Value.num qc) (hsb : rowGet s "b".toList = Value.num qd) :
    cmpRows abOrderParts r s ≤ 0 ↔ (qa < qc ∨ (qa = qc ∧ qd ≤ qb)) := by
  rw [cmpRows_ab_num r s qa qb qc qd hra hrb hsa hsb]
  by_cases hac : qa = qc
  · subst hac
    rw [if_pos rfl]
    by_cases hbd : qb = qd
    · subst hbd
      rw [if_pos rfl]
      constructor
      · intro _
        exact Or.inr ⟨rfl, le_refl _⟩
      · intro _
        norm_num
    · rw [if_neg hbd]
      by_cases hlt : qb < qd
      · rw [if_pos hlt]
        constructor
        · intro hcon
          exact absurd hcon (by norm_num)
        · rintro (hcon | ⟨-, hge⟩)
          · exact absurd hcon (lt_irrefl _)
          · exact absurd hlt (not_lt.mpr hge)
      · rw [if_neg hlt]
        constructor
        · intro _
          exact Or.inr ⟨rfl, le_of_not_lt hlt⟩
        · intro _
          norm_num
  · rw [if_neg hac]
    by_cases hlt : qa < qc
    · rw [if_pos hlt]
      constructor
      · intro _
        exact Or.inl hlt
      · intro _
        norm_num
    · rw [if_neg hlt]
      constructor
      · intro hcon
        exact absurd hcon (by norm_num)
      · rintro (hcon | ⟨heq, -⟩)
        · exact absurd hcon hlt
        · exact absurd heq hac

/-- Two rows that agree (strictly) on the `a` and `b` columns compare equal
under the `a ASC, b DESC` comparator. -/
theorem cmpRows_ab_zero_of_eq (r s : Row)
    (ha : rowGet r "a".toList = rowGet s "a".toList)
    (hb : rowGet r "b".toList = rowGet s "b".toList) :
    cmpRows abOrderParts r s = 0 := by
  have h1 : splitWsRuns "a ASC".toList = ["a".toList, "ASC".toList] := by decide
  have h2 : splitWsRuns "b DESC".toList = ["b".toList, "DESC".toList] := by decide
  simp only [abOrderParts, cmpRows, h1, h2, List.headI, List.get?]
  rw [ha, hb]
  simp

/-- `applyOrderBy` on the clause `a ASC, b DESC` is the stable merge sort by
the row comparator. -/
theorem applyOrderBy_ab (data : List Row) :
    applyOrderBy data "a ASC, b DESC".toList = data.mergeSort abLe := by
  unfold applyOrderBy
  rw [show (strSplitOn "a ASC, b DESC".toList ",".toList).map strTrim = abOrderParts from by
    decide]
  rfl

/-- Extract the numeric column values of a number-typed row. -/
theorem ab_num_of_isNum (r : Row)
    (h : (rowGet r "a".toList).isNum = true ∧ (rowGet r "b".toList).isNum = true) :
    ∃ qa qb, rowGet r "a".toList = Value.num qa ∧ rowGet r "b".toList = Value.num qb := by
  obtain ⟨ha, hb⟩ := h
  obtain ⟨qa, hqa⟩ := (isNum_iff _).mp ha
  obtain ⟨qb, hqb⟩ := (isNum_iff _).mp hb
  exact ⟨qa, qb, hqa, hqb⟩

/-- On number-typed rows the comparator relation is transitive. -/
theorem abLeSub_trans (data : List Row)
    (h : ∀ r ∈ data, (rowGet r "a".toList).isNum = true ∧ (rowGet r "b".toList).isNum = true) :
    ∀ x y z : {r : Row // r ∈ data},
      abLeSub data x y → abLeSub data y z → abLeSub data x z := by
  intro x y z hxy hyz
  obtain ⟨qa, qb, hxa, hxb⟩ := ab_num_of_isNum x.1 (h x.1 x.2)
  obtain ⟨qc, qd, hya, hyb⟩ := ab_num_of_isNum y.1 (h y.1 y.2)
  obtain ⟨qe, qf, hza, hzb⟩ := ab_num_of_isNum z.1 (h z.1 z.2)
  have h1 := (cmpRows_ab_le_iff x.1 y.1 qa qb qc qd hxa hxb hya hyb).mp
    (of_decide_eq_true hxy)
  have h2 := (cmpRows_ab_le_iff y.1 z.1 qc qd qe qf hya hyb hza hzb).mp
    (of_decide_eq_true hyz)
  refine decide_eq_true ((cmpRows_ab_le_iff x.1 z.1 qa qb qe qf hxa hxb hza hzb).mpr ?_)
  rcases h1 with h1 | ⟨h1e, h1b⟩ <;> rcases h2 with h2 | ⟨h2e, h2b⟩
  · exact Or.inl (lt_trans h1 h2)
  · exact Or.inl (h2e ▸ h1)
  · exact Or.inl (h1e ▸ h2)
  · exact Or.inr ⟨h1e.trans h2e, le_trans h2b h1b⟩

/-- On number-typed rows the comparator relation is total. -/
theorem abLeSub_total (data : List Row)
    (h : ∀ r ∈ data, (rowGet r "a".toList).isNum = true ∧ (rowGet r "b".toList).isNum = true) :
    ∀ x y : {r : Row // r ∈ data}, abLeSub data x y || abLeSub data y x := by
  intro x y
  obtain ⟨qa, qb, hxa, hxb⟩ := ab_num_of_isNum x.1 (h x.1 x.2)
  obtain ⟨qc, qd, hya, hyb⟩ := ab_num_of_isNum y.1 (h y.1 y.2)
  rw [Bool.or_eq_true]
  rcases lt_trichotomy qa qc with hlt | heq | hgt
  · exact Or.inl (decide_eq_true
      ((cmpRows_ab_le_iff x.1 y.1 qa qb qc qd hxa hxb hya hyb).mpr (Or.inl hlt)))
  · rcases le_total qd qb with hle | hle
    · exact Or.inl (decide_eq_true
        ((cmpRows_ab_le_iff x.1 y.1 qa qb qc qd hxa hxb hya hyb).mpr (Or.inr ⟨heq, hle⟩)))
    · exact Or.inr (decide_eq_true
        ((cmpRows_ab_le_iff y.1 x.1 qc qd qa qb hya hyb hxa hxb).mpr
          (Or.inr ⟨heq.symm, hle⟩)))
  · exact Or.inr (decide_eq_true
      ((cmpRows_ab_le_iff y.1 x.1 qc qd qa qb hya hyb hxa hxb).mpr (Or.inl hgt)))

/-- **C7.**  On rows whose `a` and `b` columns hold numbers — the setting of
the claim's `ORDER BY a ASC, b DESC` example — `applyOrderBy` is a stable
multi-key sort: the output is a permutation of the input; consecutive rows
are ordered by `a` ascending with ties on `a` broken by `b` descending
(comparison falls through to the next key exactly on ties); and two rows
equal on all keys retain their relative input order. -/
theorem C7_orderby_is_stable_multikey_sort (data : List Row)
    (h : ∀ r ∈ data,
      (rowGet r "a".toList).isNum = true ∧ (rowGet r "b".toList).isNum = true) :
    (applyOrderBy data "a ASC, b DESC".toList).Perm data ∧
    (applyOrderBy data "a ASC, b DESC".toList).Pairwise (fun r s =>
      numValAt r "a".toList < numValAt s "a".toList ∨
      (numValAt r "a".toList = numValAt s "a".toList ∧
        numValAt s "b".toList ≤ numValAt r "b".toList)) ∧
    (∀ r s : Row, rowGet r "a".toList = rowGet s "a".toList →
      rowGet r "b".toList = rowGet s "b".toList →
      List.Sublist [r, s] data →
      List.Sublist [r, s] (applyOrderBy data "a ASC, b DESC".toList)) := by
  have happly := applyOrderBy_ab data
  have htrans := abLeSub_trans data h
  have htotal := abLeSub_total data h
  have hmap : (data.attach.mergeSort (abLeSub data)).map Subtype.val =
      data.mergeSort abLe := by
    have hcomm := List.map_mergeSort (l := data.attach) (f := Subtype.val)
      (r := abLeSub data) (s := abLe) (fun a _ b _ => rfl)
    rw [hcomm, List.attach_map_subtype_val]
  refine ⟨?_, ?_, ?_⟩
  · rw [happly]
    exact List.mergeSort_perm data abLe
  · rw [happly, ← hmap]
    have hs := List.sorted_mergeSort htrans htotal data.attach
    refine hs.map Subtype.val ?_
    intro x y hxy
    obtain ⟨qa, qb, hxa, hxb⟩ := ab_num_of_isNum x.1 (h x.1 x.2)
    obtain ⟨qc, qd, hya, hyb⟩ := ab_num_of_isNum y.1 (h y.1 y.2)
    have hp := (cmpRows_ab_le_iff x.1 y.1 qa qb qc qd hxa hxb hya hyb).mp
      (of_decide_eq_true hxy)
    simp only [numValAt, hxa, hxb, hya, hyb]
    exact hp
  · intro r s hacol hbcol hsub
    have hle : abLe r s = true := decide_eq_true
      (by rw [cmpRows_ab_zero_of_eq r s hacol hbcol])
    rw [← List.attach_map_subtype_val data] at hsub
    obtain ⟨c, hcsub, hceq⟩ := List.sublist_map_iff.mp hsub
    match c, hceq with
    | [x, y], hceq =>
      have hrx : r = x.1 := by
        simpa using congrArg (fun l => l.headI) hceq
      have hsy : s = y.1 := by
        simpa using congrArg (fun l => l.tail.headI) hceq
      have hpair : List.Pairwise (fun u v => abLeSub data u v = true) [x, y] := by
        refine List.pairwise_cons.mpr ⟨?_, List.pairwise_singleton _ _⟩
        intro b hb
        rw [List.mem_singleton.mp hb]
        show abLe x.1 y.1 = true
        rw [← hrx, ← hsy]
        exact hle
      have hsorted := List.sublist_mergeSort htrans htotal hpair hcsub
      have hmapped := hsorted.map Subtype.val
      rw [hmap] at hmapped
      rw [happly, hrx, hsy]
      exact hmapped

/-- **C7, witness** for `C7_orderby_is_stable_multikey_sort`: three concrete
rows with numeric `a` and `b` columns. -/
theorem C7_orderby_witness :
    (applyOrderBy [[("a".toList, Value.num 2), ("b".toList, Value.num 1)],
      [("a".toList, Value.num 1), ("b".toList, Value.num 3)],
      [("a".toList, Value.num 1), ("b".toList, Value.num 7)]]
      "a ASC, b DESC".toList).Perm
      [[("a".toList, Value.num 2), ("b".toList, Value.num 1)],
        [("a".toList, Value.num 1), ("b".toList, Value.num 3)],
        [("a".toList, Value.num 1), ("b".toList, Value.num 7)]] ∧
    (applyOrderBy [[("a".toList, Value.num 2), ("b".toList, Value.num 1)],
      [("a".toList, Value.num 1), ("b".toList, Value.num 3)],
      [("a".toList, Value.num 1), ("b".toList, Value.num 7)]]
      "a ASC, b DESC".toList).Pairwise (fun r s =>
        numValAt r "a".toList < numValAt s "a".toList ∨
        (numValAt r "a".toList = numValAt s "a".toList ∧
          numValAt s "b".toList ≤ numValAt r "b".toList)) ∧
    (∀ r s : Row, rowGet r "a".toList = rowGet s "a".toList →
      rowGet r "b".toList = rowGet s "b".toList →
      List.Sublist [r, s] [[("a".toList, Value.num 2), ("b".toList, Value.num 1)],
        [("a".toList, Value.num 1), ("b".toList, Value.num 3)],
        [("a".toList, Value.num 1), ("b".toList, Value.num 7)]] →
      List.Sublist [r, s]
        (applyOrderBy [[("a".toList, Value.num 2), ("b".toList, Value.num 1)],
          [("a".toList, Value.num 1), ("b".toList, Value.num 3)],
          [("a".toList, Value.num 1), ("b".toList, Value.num 7)]]
          "a ASC, b DESC".toList)) :=
  C7_orderby_is_stable_multikey_sort _ (by decide)

end SqlSpec
